import Mathlib

/-
Verification of the SLOG ordering-layer specification against the code.

Shallow embedding of:
  * LocalLog / BatchLog        (modelled from spec section 4.1/4.2; implementation absent
                                from src/, behavior pinned by src/test/module/interleaver_test.cpp)
  * MultiHomeOrderer           (src/unnamed/part_000)
  * Sender                     (src/connection/sender.cpp)
  * SimpleRemasterManager      (modelled from spec section 4.5 constrained by the unit
                                tests in src/test/module/interleaver_test.cpp)
  * BasicWorkload              (src/workload/basic.cpp)

Machine integers are modelled as Nat (no overflow is relevant to the claims:
all quantities are counters and identifiers well below 2^32/2^64 in the
scenarios considered). Keys are modelled as Nat (the C++ code uses strings,
whose only relevant operation here is equality).
-/

namespace Slog

/-! ### Association lists (models of std::map / unordered_map with Nat keys) -/

def alookup {α : Type} : Nat → List (Nat × α) → Option α
  | _, [] => none
  | k, (k2, v) :: rest => if k = k2 then some v else alookup k rest

def aremove {α : Type} (k : Nat) (l : List (Nat × α)) : List (Nat × α) :=
  l.filter (fun p => p.1 != k)

/-! ### LocalLog (single-home interleaving), spec section 4.2

State: per queue_id an out-of-order buffer of (position, batch_id) arrivals
and a next-expected-position cursor; a log of slot decisions
(slot -> queue_id, leader) with a next_slot cursor; a FIFO of ready emissions.
Each Add operation moves every newly emittable batch into the ready FIFO
(the update loop), mirroring the eager reconciliation the tests observe. -/

structure LEmit where
  slot : Nat
  queue : Nat
  pos : Nat
  batch : Nat
  leader : Nat
deriving DecidableEq

structure LocalLog where
  slots : List (Nat × Nat × Nat)
  queues : List (Nat × List (Nat × Nat))
  nextPos : List (Nat × Nat)
  nextSlot : Nat
  ready : List LEmit
deriving DecidableEq

def LocalLog.init : LocalLog := ⟨[], [], [], 0, []⟩

def LocalLog.getQ (l : LocalLog) (q : Nat) : List (Nat × Nat) :=
  (alookup q l.queues).getD []

def npOf (np : List (Nat × Nat)) (q : Nat) : Nat :=
  (alookup q np).getD 0

def LocalLog.getNP (l : LocalLog) (q : Nat) : Nat :=
  npOf l.nextPos q

def LocalLog.step (l : LocalLog) : Option LocalLog :=
  match alookup l.nextSlot l.slots with
  | none => none
  | some ql =>
    match alookup (l.getNP ql.1) (l.getQ ql.1) with
    | none => none
    | some bid =>
      some { l with
        nextPos := (ql.1, l.getNP ql.1 + 1) :: l.nextPos,
        nextSlot := l.nextSlot + 1,
        ready := l.ready ++ [⟨l.nextSlot, ql.1, l.getNP ql.1, bid, ql.2⟩] }

def LocalLog.update : LocalLog → Nat → LocalLog
  | l, 0 => l
  | l, fuel + 1 =>
    match l.step with
    | none => l
    | some l2 => l2.update fuel

def LocalLog.addBatchId (l : LocalLog) (q p b : Nat) : LocalLog :=
  let l2 : LocalLog := { l with queues := (q, (p, b) :: l.getQ q) :: l.queues }
  l2.update l2.slots.length

def LocalLog.addSlot (l : LocalLog) (s q leader : Nat) : LocalLog :=
  let l2 : LocalLog := { l with slots := (s, q, leader) :: l.slots }
  l2.update l2.slots.length

def LocalLog.hasNextBatch (l : LocalLog) : Bool :=
  !l.ready.isEmpty

def LocalLog.nextBatch (l : LocalLog) : Option (LEmit × LocalLog) :=
  match l.ready with
  | [] => none
  | e :: rest => some (e, { l with ready := rest })

/-- Successive NextBatch() calls, returning (slot, (batch_id, leader)) triples
exactly as the C++ NextBatch does. -/
def LocalLog.takeBatches : LocalLog → Nat → List (Nat × Nat × Nat)
  | _, 0 => []
  | l, n + 1 =>
    match l.nextBatch with
    | none => []
    | some (e, l2) => (e.slot, e.batch, e.leader) :: l2.takeBatches n

inductive LOp where
  | addBatchId (q p b : Nat)
  | addSlot (s q leader : Nat)
  | next
deriving DecidableEq

def LocalLog.applyOp (l : LocalLog) : LOp → LocalLog × Option LEmit
  | .addBatchId q p b => (l.addBatchId q p b, none)
  | .addSlot s q leader => (l.addSlot s q leader, none)
  | .next =>
    match l.nextBatch with
    | none => (l, none)
    | some (e, l2) => (l2, some e)

def runLocalAux : LocalLog → List LEmit → List LOp → LocalLog × List LEmit
  | l, out, [] => (l, out)
  | l, out, op :: ops =>
    let r := l.applyOp op
    runLocalAux r.1 (out ++ r.2.toList) ops

def runLocal (ops : List LOp) : LocalLog × List LEmit :=
  runLocalAux LocalLog.init [] ops

/-! ### BatchLog (multi-home reconciliation), spec section 4.1

State: a map batch_id -> batch awaiting a slot, a map slot -> batch_id
awaiting data, a cursor next_slot, and a FIFO of ready (slot, batch) pairs. -/

inductive TType where
  | singleHome
  | multiHome
deriving DecidableEq

structure Batch where
  id : Nat
  transactionType : TType
  txns : List Nat
deriving DecidableEq

structure BatchLog where
  batches : List (Nat × Batch)
  slots : List (Nat × Nat)
  nextSlot : Nat
  ready : List (Nat × Batch)
deriving DecidableEq

def BatchLog.init : BatchLog := ⟨[], [], 0, []⟩

def BatchLog.step (l : BatchLog) : Option BatchLog :=
  match alookup l.nextSlot l.slots with
  | none => none
  | some bid =>
    match alookup bid l.batches with
    | none => none
    | some b =>
      some { batches := aremove bid l.batches,
             slots := l.slots,
             nextSlot := l.nextSlot + 1,
             ready := l.ready ++ [(l.nextSlot, b)] }

def BatchLog.update : BatchLog → Nat → BatchLog
  | l, 0 => l
  | l, fuel + 1 =>
    match l.step with
    | none => l
    | some l2 => l2.update fuel

def BatchLog.addBatch (l : BatchLog) (b : Batch) : BatchLog :=
  let l2 : BatchLog := { l with batches := (b.id, b) :: l.batches }
  l2.update l2.slots.length

def BatchLog.addSlot (l : BatchLog) (s bid : Nat) : BatchLog :=
  let l2 : BatchLog := { l with slots := (s, bid) :: l.slots }
  l2.update l2.slots.length

def BatchLog.hasNextBatch (l : BatchLog) : Bool :=
  !l.ready.isEmpty

def BatchLog.nextBatch (l : BatchLog) : Option ((Nat × Batch) × BatchLog) :=
  match l.ready with
  | [] => none
  | e :: rest => some (e, { l with ready := rest })

inductive BOp where
  | addBatch (b : Batch)
  | addSlot (s bid : Nat)
  | next
deriving DecidableEq

def BatchLog.applyOp (l : BatchLog) : BOp → BatchLog × Option (Nat × Batch)
  | .addBatch b => (l.addBatch b, none)
  | .addSlot s bid => (l.addSlot s bid, none)
  | .next =>
    match l.nextBatch with
    | none => (l, none)
    | some (e, l2) => (l2, some e)

def runBatchAux : BatchLog → List (Nat × Batch) → List BOp → BatchLog × List (Nat × Batch)
  | l, out, [] => (l, out)
  | l, out, op :: ops =>
    let r := l.applyOp op
    runBatchAux r.1 (out ++ r.2.toList) ops

def runBatch (ops : List BOp) : BatchLog × List (Nat × Batch) :=
  runBatchAux BatchLog.init [] ops

/-! ### MultiHomeOrderer (src/unnamed/part_000)

`Config` abstracts the Configuration collaborator (section 6) together with the
constant kMaxNumMachines from common/constants.h (value not under src/, kept
as a parameter). Outgoing messages model Send(env, channel) (local) and
Send(env, machine_id, channel) (remote). -/

structure Config where
  numReplicas : Nat
  localMachineId : Nat
  leaderPartitionForMultiHomeOrdering : Nat
  makeMachineId : Nat → Nat → Nat
  kMaxNumMachines : Nat

inductive Channel where
  | globalPaxos
  | sequencer
  | multiHomeOrderer
deriving DecidableEq

inductive Payload where
  | paxosPropose (v : Nat)
  | forwardBatchData (b : Batch)
deriving DecidableEq

inductive MHOut where
  | localMsg (ch : Channel) (p : Payload)
  | remoteMsg (machine : Nat) (ch : Channel) (p : Payload)
deriving DecidableEq

structure MHOState where
  curBatch : Batch
  batchIdCounter : Nat
  multiHomeBatchLog : BatchLog
deriving DecidableEq

/-- MultiHomeOrderer::NewBatch - clear the open batch and tag it MULTI_HOME. -/
def newBatch : Batch := ⟨0, TType.multiHome, []⟩

/-- Constructor: batch_id_counter_(0) followed by NewBatch(). -/
def MHOState.init : MHOState := ⟨newBatch, 0, BatchLog.init⟩

/-- MultiHomeOrderer::NextBatchId - pre-increments the counter and returns
counter * kMaxNumMachines + local_machine_id, with the new counter. -/
def nextBatchId (cfg : Config) (c : Nat) : Nat × Nat :=
  (c + 1, (c + 1) * cfg.kMaxNumMachines + cfg.localMachineId)

/-- The while(HasNextBatch) loop at the end of ProcessForwardBatch: pop every
ready (slot, batch) pair in order, overwrite batch.id with the slot, and send
it to the sequencer channel. -/
def drainBatchLog (bl : BatchLog) : BatchLog × List MHOut :=
  ({ bl with ready := [] },
   bl.ready.map (fun p => MHOut.localMsg Channel.sequencer
     (Payload.forwardBatchData { p.2 with id := p.1 })))

inductive FwdBatch where
  | batchData (b : Batch)
  | batchOrder (slot bid : Nat)
deriving DecidableEq

/-- MultiHomeOrderer::ProcessForwardBatch. -/
def processForwardBatch (s : MHOState) (fb : FwdBatch) : MHOState × List MHOut :=
  let bl := match fb with
    | .batchData b => s.multiHomeBatchLog.addBatch b
    | .batchOrder slot bid => s.multiHomeBatchLog.addSlot slot bid
  let r := drainBatchLog bl
  ({ s with multiHomeBatchLog := r.1 }, r.2)

/-- MultiHomeOrderer::HandleCustomSocket - the tick handler. -/
def handleTick (cfg : Config) (s : MHOState) : MHOState × List MHOut :=
  if s.curBatch.txns.isEmpty then (s, [])
  else
    let r := nextBatchId cfg s.batchIdCounter
    let closed : Batch := { s.curBatch with id := r.2 }
    let paxosOut := MHOut.localMsg Channel.globalPaxos (Payload.paxosPropose r.2)
    let repOuts := (List.range cfg.numReplicas).map (fun rep =>
      MHOut.remoteMsg (cfg.makeMachineId rep cfg.leaderPartitionForMultiHomeOrdering)
        Channel.multiHomeOrderer (Payload.forwardBatchData closed))
    ({ curBatch := newBatch, batchIdCounter := r.1, multiHomeBatchLog := s.multiHomeBatchLog },
     paxosOut :: repOuts)

inductive MHOEvent where
  | forwardTxn (t : Nat)
  | forwardBatchData (b : Batch)
  | forwardBatchOrder (slot bid : Nat)
  | tick
deriving DecidableEq

/-- MultiHomeOrderer::HandleInternalRequest plus the tick source. -/
def handleEvent (cfg : Config) (s : MHOState) : MHOEvent → MHOState × List MHOut
  | .forwardTxn t =>
    ({ s with curBatch := { s.curBatch with txns := s.curBatch.txns ++ [t] } }, [])
  | .forwardBatchData b => processForwardBatch s (.batchData b)
  | .forwardBatchOrder slot bid => processForwardBatch s (.batchOrder slot bid)
  | .tick => handleTick cfg s

def runMHOAux (cfg : Config) : MHOState → List MHOut → List MHOEvent → MHOState × List MHOut
  | s, out, [] => (s, out)
  | s, out, ev :: evs =>
    let r := handleEvent cfg s ev
    runMHOAux cfg r.1 (out ++ r.2) evs

def runMHO (cfg : Config) (evs : List MHOEvent) : MHOState × List MHOut :=
  runMHOAux cfg MHOState.init [] evs

/-- The counter value and the list of batch ids produced by n successive
NextBatchId() calls starting from the freshly constructed orderer. -/
def batchIdCalls (cfg : Config) : Nat → Nat × List Nat
  | 0 => (0, [])
  | n + 1 =>
    let r := batchIdCalls cfg n
    let r2 := nextBatchId cfg r.1
    (r2.1, r.2 ++ [r2.2])

/-- The batch carried by a message iff it is a batch handed to the sequencer
channel. -/
def seqBatchOf : MHOut → Option Batch
  | MHOut.localMsg Channel.sequencer (Payload.forwardBatchData b) => some b
  | _ => none

/-- The batches this orderer handed to the sequencer channel, in send order. -/
def seqBatches (outs : List MHOut) : List Batch :=
  outs.filterMap seqBatchOf

/-! ### Sender (src/connection/sender.cpp)

Only the control flow relevant to claim C9 is modelled: the per-destination
and per-channel socket caches are modelled by the sets of keys they contain,
the broker weak pointer by a boolean, and the result records whether the
message was handed to a socket. -/

structure SenderState where
  machineIdToSocket : List Nat
  localChannelToSocket : List Nat
deriving DecidableEq

/-- Sender::SendSerialized - returns the updated cache state and whether the
envelope was written to a socket. -/
def sendSerialized (brokerAlive : Bool) (s : SenderState) (toMachineId : Nat) :
    SenderState × Bool :=
  if toMachineId ∈ s.machineIdToSocket then (s, true)
  else if brokerAlive then
    ({ s with machineIdToSocket := toMachineId :: s.machineIdToSocket }, true)
  else (s, false)

/-- Sender::SendLocal - same shape on the per-channel cache. -/
def sendLocal (brokerAlive : Bool) (s : SenderState) (toChannel : Nat) :
    SenderState × Bool :=
  if toChannel ∈ s.localChannelToSocket then (s, true)
  else if brokerAlive then
    ({ s with localChannelToSocket := toChannel :: s.localChannelToSocket }, true)
  else (s, false)

/-! ### SimpleRemasterManager, spec section 4.5

Modelled from the spec: the SimpleRemasterManager implementation is not under
src/ (only its unit tests in src/test/module/interleaver_test.cpp are). The
model follows section 4.5 where the tests leave it free, and the tests where
they pin the behavior down. The tests force two things the prose of 4.5
elides: (1) blocked transactions live in one FIFO queue per home region
(the region the transaction declares as master for all of its keys), not one
queue per key - test BlockLocalLog queues a metadata-matching transaction
behind an earlier waiting one from the same home, and test ReleaseTransaction
unblocks a transaction sharing no key with the released one; (2) counters are
compared before masters: a declared counter above (below) the stored counter
yields WAITING (ABORT) without looking at the master, and a mismatched master
is a fatal check only when the counters are equal (tests ValidateMetadata and
ReleaseTransaction). A fatal check failure is modelled as `none`.

A transaction holder carries, per key, the caller-declared
(master, counter) pair; storage maps a key to its committed (master, counter).
Keys are Nat (test key A is 0, B is 1). -/

inductive VMResult where
  | valid
  | waiting
  | abort
deriving DecidableEq

structure TxnH where
  id : Nat
  keys : List (Nat × Nat × Nat)
deriving DecidableEq

/-- The home region a single-home transaction declares: the master of its
first key (the per-key declarations of a well-formed input all agree). -/
def TxnH.home (t : TxnH) : Nat :=
  ((t.keys.head?).map (fun k => k.2.1)).getD 0

abbrev Storage : Type := List (Nat × Nat × Nat)

def storedCounter (st : Storage) (k : Nat) : Nat :=
  ((alookup k st).map (fun r => r.2)).getD 0

/-- RemasterManager::CheckCounters. Walks the keys with a waiting flag;
a counter above the stored one sets the flag, a counter below aborts
immediately, equal counters require equal masters (else fatal = none).
A key absent from storage is compared against counter 0 (spec 4.5). -/
def checkCountersAux (st : Storage) : List (Nat × Nat × Nat) → Bool → Option VMResult
  | [], w => some (if w then VMResult.waiting else VMResult.valid)
  | k :: rest, w =>
    match alookup k.1 st with
    | some r =>
      if r.2 < k.2.2 then checkCountersAux st rest true
      else if k.2.2 < r.2 then some VMResult.abort
      else if k.2.1 = r.1 then checkCountersAux st rest w
      else none
    | none =>
      if 0 < k.2.2 then checkCountersAux st rest true
      else checkCountersAux st rest w

def checkCounters (st : Storage) (t : TxnH) : Option VMResult :=
  checkCountersAux st t.keys false

/-- Blocked-transaction queues, one FIFO per home region. -/
structure SRMState where
  blockedQueue : List (Nat × List TxnH)
deriving DecidableEq

def SRMState.init : SRMState := ⟨[]⟩

def SRMState.getQueue (m : SRMState) (h : Nat) : List TxnH :=
  (alookup h m.blockedQueue).getD []

def SRMState.setQueue (m : SRMState) (h : Nat) (q : List TxnH) : SRMState :=
  ⟨(h, q) :: aremove h m.blockedQueue⟩

/-- SimpleRemasterManager::VerifyMaster. If the home-region queue is
non-empty the transaction is appended behind it and WAITING is returned
without inspecting its metadata; otherwise the counters are checked and a
WAITING transaction starts a queue. -/
def verifyMaster (st : Storage) (m : SRMState) (t : TxnH) : Option VMResult × SRMState :=
  let h := t.home
  let q := m.getQueue h
  if q.isEmpty then
    match checkCounters st t with
    | some VMResult.waiting => (some VMResult.waiting, m.setQueue h [t])
    | r => (r, m)
  else (some VMResult.waiting, m.setQueue h (q ++ [t]))

/-- SimpleRemasterManager::TryToUnblock - re-verify successive queue heads,
collecting the now-VALID ones as unblocked and the now-ABORT ones as
should_abort, stopping at the first head that is still WAITING. Returns the
remaining queue and the two lists in pop order (none on a fatal check). -/
def cascade (st : Storage) : List TxnH → Option (List TxnH × List TxnH × List TxnH)
  | [] => some ([], [], [])
  | t :: rest =>
    match checkCounters st t with
    | some VMResult.waiting => some (t :: rest, [], [])
    | some VMResult.valid =>
      match cascade st rest with
      | none => none
      | some (q, u, a) => some (q, t :: u, a)
    | some VMResult.abort =>
      match cascade st rest with
      | none => none
      | some (q, u, a) => some (q, u, t :: a)
    | none => none

structure RemasterOccurredResult where
  unblocked : List TxnH
  shouldAbort : List TxnH
deriving DecidableEq

def txnAccessesKey (t : TxnH) (key : Nat) : Bool :=
  t.keys.any (fun k => k.1 == key)

def remasterOccuredAux (st : Storage) (key : Nat) :
    List (Nat × List TxnH) → Option (List (Nat × List TxnH) × List TxnH × List TxnH)
  | [] => some ([], [], [])
  | (h, q) :: rest =>
    let frontHasKey := match q.head? with
      | some t => txnAccessesKey t key
      | none => false
    if frontHasKey then
      match cascade st q with
      | none => none
      | some (q2, u, a) =>
        match remasterOccuredAux st key rest with
        | none => none
        | some (rest2, u2, a2) => some ((h, q2) :: rest2, u ++ u2, a ++ a2)
    else
      match remasterOccuredAux st key rest with
      | none => none
      | some (rest2, u2, a2) => some ((h, q) :: rest2, u2, a2)

/-- SimpleRemasterManager::RemasterOccured. For every queue whose front
transaction accesses the remastered key, cascade from the head. The new
counter argument is not consulted: counters are re-checked against storage
(the caller updates storage before calling, as test RemasterUnblocks does). -/
def remasterOccured (st : Storage) (m : SRMState) (key : Nat) (_newCounter : Nat) :
    Option (RemasterOccurredResult × SRMState) :=
  match remasterOccuredAux st key m.blockedQueue with
  | none => none
  | some (bq, u, a) => some (⟨u, a⟩, ⟨bq⟩)

def removeFirst (t : TxnH) : List TxnH → List TxnH
  | [] => []
  | x :: rest => if x = t then rest else x :: removeFirst t rest

/-- SimpleRemasterManager::ReleaseTransaction. The transaction is removed
from its home-region queue if present; when it was the queue head, the new
head(s) are re-verified by cascading. Releasing a transaction that was never
blocked is a no-op (test ReleaseTransaction, txn3). -/
def releaseTransaction (st : Storage) (m : SRMState) (t : TxnH) :
    Option (RemasterOccurredResult × SRMState) :=
  let h := t.home
  match m.getQueue h with
  | [] => some (⟨[], []⟩, m)
  | hd :: rest =>
    if hd = t then
      match cascade st rest with
      | none => none
      | some (q2, u, a) => some (⟨u, a⟩, m.setQueue h q2)
    else if t ∈ hd :: rest then
      some (⟨[], []⟩, m.setQueue h (hd :: removeFirst t rest))
    else some (⟨[], []⟩, m)

/-! ### BasicWorkload::NextTransaction (src/workload/basic.cpp)

Only the structure claim C10 is about is embedded exactly: the per-record
loop with its retry-until-fresh-key inner loop, the i < writes read/write
split, the CHECK_LE preconditions (modelled as none, like the fatal log),
and the client_txn_id_counter_. The key actually produced by one call to a
GetXXXKey sampler is abstracted as an oracle `pick : Nat -> Nat` indexed by
the number of sampler calls made so far in this NextTransaction call; the
inner for(;;) loop retries the oracle until the key is not already in the
transaction, with explicit fuel standing for the C++ loop's (unbounded)
iteration. -/

structure KeyOp where
  key : Nat
  isWrite : Bool
deriving DecidableEq

structure Txn where
  id : Nat
  keys : List KeyOp
deriving DecidableEq

/-- The inner for(;;) loop: sample keys from the oracle until one is not
already used; returns the fresh key and the next oracle index. -/
def pickFresh (pick : Nat → Nat) (used : List Nat) : Nat → Nat → Option (Nat × Nat)
  | _, 0 => none
  | j, fuel + 1 =>
    if pick j ∈ used then pickFresh pick used (j + 1) fuel
    else some (pick j, j + 1)

/-- The outer record loop: n more records to add; i is the current record
index; acc the key-operations built so far (record i is a write iff
i < writes). -/
def buildKeysAux (pick : Nat → Nat) (writes fuel : Nat) :
    Nat → Nat → Nat → List KeyOp → Option (List KeyOp)
  | _, 0, _, acc => some acc
  | i, n + 1, j, acc =>
    match pickFresh pick (acc.map KeyOp.key) j fuel with
    | none => none
    | some r => buildKeysAux pick writes fuel (i + 1) n r.2 (acc ++ [⟨r.1, decide (i < writes)⟩])

/-- BasicWorkload constructor: client_txn_id_counter_(0). -/
def initialTxnCounter : Nat := 0

/-- BasicWorkload::NextTransaction restricted to what decides claim C10.
Returns the transaction and the new client_txn_id_counter_. The CHECK_LE
preconditions on writes and hot_records are modelled as none. -/
def nextTransaction (pick : Nat → Nat) (fuel writes hotRecords records counter : Nat) :
    Option (Txn × Nat) :=
  if records < writes then none
  else if records < hotRecords then none
  else
    match buildKeysAux pick writes fuel 0 records 0 [] with
    | none => none
    | some keys => some ({ id := counter, keys := keys }, counter + 1)

/-- A sequence of NextTransaction calls threading the id counter; each call
supplies its own oracle and fuel. A fatal call (CHECK failure or exhausted
fuel) ends the run, as LOG(FATAL) ends the process. -/
def runWorkload (writes hotRecords records : Nat) :
    List ((Nat → Nat) × Nat) → Nat → List Txn
  | [], _ => []
  | pf :: rest, c =>
    match nextTransaction pf.1 pf.2 writes hotRecords records c with
    | none => []
    | some r => r.1 :: runWorkload writes hotRecords records rest r.2

/-! ### Invariants and witness constants used by the theorems -/

/-! ### Derived predicates on the remaster manager -/

/-- Some key of the list declares a counter strictly below its current
stored counter (an absent key counts as counter 0). -/
def anyCounterLt (st : Storage) (keys : List (Nat × Nat × Nat)) : Bool :=
  keys.any (fun k => decide (k.2.2 < storedCounter st k.1))

/-- Some key of the list declares a counter strictly above its current
stored counter. -/
def anyCounterGt (st : Storage) (keys : List (Nat × Nat × Nat)) : Bool :=
  keys.any (fun k => decide (storedCounter st k.1 < k.2.2))

/-- No key triggers the fatal masters-do-not-match check: whenever a key is
present in storage and its declared counter equals the stored counter, the
declared master equals the stored master. -/
def noFatalMismatch (st : Storage) (keys : List (Nat × Nat × Nat)) : Prop :=
  ∀ k ∈ keys, ∀ r, alookup k.1 st = some r → k.2.2 = r.2 → k.2.1 = r.1

/-- The transaction x sits in one of the blocked queues. -/
def inQueues (x : TxnH) (bq : List (Nat × List TxnH)) : Prop :=
  ∃ p ∈ bq, x ∈ p.2

/-- Executable form of noFatalMismatch, used to discharge it on concrete
inputs. -/
def noFatalMismatchB (st : Storage) (keys : List (Nat × Nat × Nat)) : Bool :=
  keys.all (fun k =>
    match alookup k.1 st with
    | none => true
    | some r => !(k.2.2 == r.2) || (k.2.1 == r.1))


def LInv (l : LocalLog) (out : List LEmit) : Prop :=
  (out ++ l.ready).map LEmit.slot = List.range l.nextSlot ∧
  ∀ q, ((out ++ l.ready).filter (fun e => e.queue == q)).map LEmit.pos
        = List.range (l.getNP q)

def BInv (l : BatchLog) (outSlots : List Nat) : Prop :=
  outSlots ++ l.ready.map Prod.fst = List.range l.nextSlot

def MInv (s : MHOState) (outs : List MHOut) : Prop :=
  BInv s.multiHomeBatchLog ((seqBatches outs).map Batch.id) ∧
  s.multiHomeBatchLog.ready = []

/-- A concrete configuration for witnesses: 2 replicas, local machine id 3,
MH-ordering leader partition 1, MakeMachineId(rep, part) = rep * 2 + part,
kMaxNumMachines = 1000. -/
def cfgW : Config := ⟨2, 3, 1, fun rep part => rep * 2 + part, 1000⟩

def sW : MHOState := ⟨⟨0, TType.multiHome, [7]⟩, 0, BatchLog.init⟩

/-! ### Helper lemmas -/

theorem alookup_cons {α : Type} (k k2 : Nat) (v : α) (rest : List (Nat × α)) :
    alookup k ((k2, v) :: rest) = if k = k2 then some v else alookup k rest := rfl

theorem npOf_cons (a b q : Nat) (rest : List (Nat × Nat)) :
    npOf ((a, b) :: rest) q = if q = a then b else npOf rest q := by
  simp only [npOf, alookup_cons]
  split <;> rfl

theorem eq_range_of_append_eq_range {xs ys : List Nat} {n : Nat}
    (h : xs ++ ys = List.range n) : xs = List.range xs.length := by
  have hlen : xs.length + ys.length = n := by
    have h0 := congrArg List.length h
    simpa using h0
  have h2 := congrArg (List.take xs.length) h
  rw [List.take_left] at h2
  rw [List.take_range] at h2
  rw [Nat.min_eq_left (by omega)] at h2
  exact h2

/-! ### The slot and per-origin-position invariants of LocalLog -/

theorem LInv_init : LInv LocalLog.init [] := by
  constructor
  · simp [LocalLog.init]
  · intro q
    simp [LocalLog.init, LocalLog.getNP, npOf, alookup]

theorem LInv_step {l l2 : LocalLog} {out : List LEmit}
    (h : l.step = some l2) (hI : LInv l out) : LInv l2 out := by
  unfold LocalLog.step at h
  split at h
  · cases h
  next ql hsl =>
    split at h
    · cases h
    next bid hq =>
      injection h with h2
      subst h2
      obtain ⟨h1, hpos⟩ := hI
      constructor
      · show (out ++ (l.ready ++ [LEmit.mk l.nextSlot ql.1 (l.getNP ql.1) bid ql.2])).map LEmit.slot
            = List.range (l.nextSlot + 1)
        rw [← List.append_assoc, List.map_append, h1, List.range_succ]
        simp
      · intro q
        show ((out ++ (l.ready ++ [LEmit.mk l.nextSlot ql.1 (l.getNP ql.1) bid ql.2])).filter
                (fun e => e.queue == q)).map LEmit.pos
            = List.range (npOf ((ql.1, l.getNP ql.1 + 1) :: l.nextPos) q)
        rw [npOf_cons, ← List.append_assoc, List.filter_append, List.map_append, hpos q]
        by_cases hq2 : q = ql.1
        · subst hq2
          simp [List.range_succ, LocalLog.getNP]
        · simp [Ne.symm hq2, hq2, LocalLog.getNP]

theorem LInv_update : ∀ (fuel : Nat) (l : LocalLog) (out : List LEmit),
    LInv l out → LInv (l.update fuel) out
  | 0, _, _, hI => hI
  | fuel + 1, l, out, hI => by
    unfold LocalLog.update
    cases hs : l.step with
    | none => exact hI
    | some l2 => exact LInv_update fuel l2 out (LInv_step hs hI)

theorem LInv_addBatchId {l : LocalLog} {out : List LEmit}
    (hI : LInv l out) (q p b : Nat) : LInv (l.addBatchId q p b) out := by
  unfold LocalLog.addBatchId
  exact LInv_update _ _ _ hI

theorem LInv_addSlot {l : LocalLog} {out : List LEmit}
    (hI : LInv l out) (s q leader : Nat) : LInv (l.addSlot s q leader) out := by
  unfold LocalLog.addSlot
  exact LInv_update _ _ _ hI

theorem LInv_applyOp {l : LocalLog} {out : List LEmit} (hI : LInv l out) (op : LOp) :
    LInv (l.applyOp op).1 (out ++ ((l.applyOp op).2).toList) := by
  cases op with
  | addBatchId q p b => simpa [LocalLog.applyOp] using LInv_addBatchId hI q p b
  | addSlot s q leader => simpa [LocalLog.applyOp] using LInv_addSlot hI s q leader
  | next =>
    unfold LocalLog.applyOp LocalLog.nextBatch
    cases hr : l.ready with
    | nil => simpa using hI
    | cons e rest =>
      obtain ⟨h1, hpos⟩ := hI
      rw [hr] at h1 hpos
      constructor
      · show ((out ++ [e]) ++ rest).map LEmit.slot = List.range l.nextSlot
        rw [List.append_assoc]
        exact h1
      · intro q
        show (((out ++ [e]) ++ rest).filter (fun e => e.queue == q)).map LEmit.pos
            = List.range (l.getNP q)
        rw [List.append_assoc]
        exact hpos q

theorem runLocalAux_inv : ∀ (ops : List LOp) (l : LocalLog) (out : List LEmit),
    LInv l out → LInv (runLocalAux l out ops).1 (runLocalAux l out ops).2
  | [], _, _, hI => hI
  | op :: ops, l, out, hI => by
    unfold runLocalAux
    exact runLocalAux_inv ops _ _ (LInv_applyOp hI op)

theorem runLocal_inv (ops : List LOp) : LInv (runLocal ops).1 (runLocal ops).2 :=
  runLocalAux_inv ops _ _ LInv_init

/-! ### The slot invariant of BatchLog -/

theorem BInv_init : BInv BatchLog.init [] := by
  simp [BInv, BatchLog.init]

theorem BInv_step {l l2 : BatchLog} {os : List Nat}
    (h : l.step = some l2) (hI : BInv l os) : BInv l2 os := by
  unfold BatchLog.step at h
  split at h
  · cases h
  next bid hsl =>
    split at h
    · cases h
    next b hb =>
      injection h with h2
      subst h2
      show os ++ (l.ready ++ [(l.nextSlot, b)]).map Prod.fst = List.range (l.nextSlot + 1)
      rw [List.map_append, ← List.append_assoc, hI, List.range_succ]
      rfl

theorem BInv_update : ∀ (fuel : Nat) (l : BatchLog) (os : List Nat),
    BInv l os → BInv (l.update fuel) os
  | 0, _, _, hI => hI
  | fuel + 1, l, os, hI => by
    unfold BatchLog.update
    cases hs : l.step with
    | none => exact hI
    | some l2 => exact BInv_update fuel l2 os (BInv_step hs hI)

theorem BInv_addBatch {l : BatchLog} {os : List Nat} (hI : BInv l os) (b : Batch) :
    BInv (l.addBatch b) os := by
  unfold BatchLog.addBatch
  exact BInv_update _ _ _ hI

theorem BInv_addSlot {l : BatchLog} {os : List Nat} (hI : BInv l os) (s bid : Nat) :
    BInv (l.addSlot s bid) os := by
  unfold BatchLog.addSlot
  exact BInv_update _ _ _ hI

theorem BInv_applyOp {l : BatchLog} {os : List (Nat × Batch)} (hI : BInv l (os.map Prod.fst))
    (op : BOp) : BInv (l.applyOp op).1 ((os ++ ((l.applyOp op).2).toList).map Prod.fst) := by
  cases op with
  | addBatch b => simpa [BatchLog.applyOp] using BInv_addBatch hI b
  | addSlot s bid => simpa [BatchLog.applyOp] using BInv_addSlot hI s bid
  | next =>
    unfold BatchLog.applyOp BatchLog.nextBatch
    cases hr : l.ready with
    | nil => simpa using hI
    | cons e rest =>
      unfold BInv at hI ⊢
      rw [hr] at hI
      show (os ++ [e]).map Prod.fst ++ rest.map Prod.fst = List.range l.nextSlot
      rw [List.map_append, List.append_assoc]
      simpa using hI

theorem runBatchAux_inv : ∀ (ops : List BOp) (l : BatchLog) (out : List (Nat × Batch)),
    BInv l (out.map Prod.fst) →
    BInv (runBatchAux l out ops).1 ((runBatchAux l out ops).2.map Prod.fst)
  | [], _, _, hI => hI
  | op :: ops, l, out, hI => by
    unfold runBatchAux
    exact runBatchAux_inv ops _ _ (BInv_applyOp hI op)

theorem runBatch_inv (ops : List BOp) :
    BInv (runBatch ops).1 ((runBatch ops).2.map Prod.fst) :=
  runBatchAux_inv ops _ _ (by simpa using BInv_init)

/-- Claim C2: for every sequence of AddBatchId/AddSlot operations on a LocalLog
(and AddBatch/AddSlot on a BatchLog), with NextBatch performed only when
HasNextBatch is true (a next operation on an empty ready queue returns
nothing), the slot numbers of the successively returned batches are exactly
0, 1, 2, ...: strictly increasing by 1 starting from 0, with no slot skipped
or repeated. -/
theorem claim_C2 :
    (∀ ops : List LOp,
      ((runLocal ops).2.map LEmit.slot) = List.range (runLocal ops).2.length) ∧
    (∀ ops : List BOp,
      ((runBatch ops).2.map Prod.fst) = List.range (runBatch ops).2.length) := by
  constructor
  · intro ops
    have h := (runLocal_inv ops).1
    rw [List.map_append] at h
    have h2 := eq_range_of_append_eq_range h
    simpa using h2
  · intro ops
    have h := runBatch_inv ops
    unfold BInv at h
    have h2 := eq_range_of_append_eq_range h
    simpa using h2

/-- Claim C3: for every sequence of LocalLog operations, the batches emitted
for any one queue_id come in increasing same_origin_position order 0, 1, 2,
... (so of two batches from the same origin, the one with the smaller
position is emitted first); and in the concrete scenario
AddBatchId(111,1,200), AddBatchId(111,2,300), AddSlot(0,111,0),
AddSlot(1,111,0) leaves HasNextBatch() false, and after additionally
AddBatchId(111,0,100) and AddSlot(2,111,0) three successive NextBatch()
calls return (0,(100,0)), (1,(200,0)), (2,(300,0)) in that order. -/
theorem claim_C3 :
    (∀ (ops : List LOp) (q : Nat),
      (((runLocal ops).2.filter (fun e => e.queue == q)).map LEmit.pos)
        = List.range ((runLocal ops).2.filter (fun e => e.queue == q)).length) ∧
    ((((LocalLog.init.addBatchId 111 1 200).addBatchId 111 2
        300).addSlot 0 111 0).addSlot 1 111 0).hasNextBatch = false ∧
    (((((((LocalLog.init.addBatchId 111 1 200).addBatchId 111 2
        300).addSlot 0 111 0).addSlot 1 111 0).addBatchId 111 0
        100).addSlot 2 111 0).takeBatches 3)
      = [(0, 100, 0), (1, 200, 0), (2, 300, 0)] := by
  refine ⟨?_, ?_, ?_⟩
  · intro ops q
    have h := (runLocal_inv ops).2 q
    rw [List.filter_append, List.map_append] at h
    have h2 := eq_range_of_append_eq_range h
    simpa using h2
  · decide
  · decide

/-! ### MultiHomeOrderer: the drained-after-every-event invariant -/

theorem seqBatches_append (a b : List MHOut) :
    seqBatches (a ++ b) = seqBatches a ++ seqBatches b := by
  simp [seqBatches, List.filterMap_append]

theorem seqBatches_tick (cfg : Config) (s : MHOState) :
    seqBatches (handleTick cfg s).2 = [] := by
  unfold handleTick
  split
  · rfl
  · simp [seqBatches, seqBatchOf, List.filterMap_cons, List.filterMap_map, Function.comp]

theorem handleTick_batchLog (cfg : Config) (s : MHOState) :
    (handleTick cfg s).1.multiHomeBatchLog = s.multiHomeBatchLog := by
  unfold handleTick
  split <;> rfl

theorem drain_seq (rd : List (Nat × Batch)) :
    (seqBatches (rd.map (fun p => MHOut.localMsg Channel.sequencer
        (Payload.forwardBatchData { p.2 with id := p.1 })))).map Batch.id
      = rd.map Prod.fst := by
  induction rd with
  | nil => rfl
  | cons e rest ih =>
    simp only [seqBatches, List.filterMap_map] at ih
    simp [seqBatches, List.filterMap_cons, seqBatchOf, List.filterMap_map, ih]

theorem MInv_drain {bl : BatchLog} {outs : List MHOut}
    (h : BInv bl ((seqBatches outs).map Batch.id)) :
    BInv (drainBatchLog bl).1 ((seqBatches (outs ++ (drainBatchLog bl).2)).map Batch.id)
    ∧ (drainBatchLog bl).1.ready = [] := by
  constructor
  · show BInv { bl with ready := [] }
        ((seqBatches (outs ++ (drainBatchLog bl).2)).map Batch.id)
    rw [seqBatches_append, List.map_append]
    have h2 : (drainBatchLog bl).2 = bl.ready.map (fun p => MHOut.localMsg Channel.sequencer
        (Payload.forwardBatchData { p.2 with id := p.1 })) := rfl
    rw [h2, drain_seq]
    show (seqBatches outs).map Batch.id ++ bl.ready.map Prod.fst ++ ([] : List (Nat × Batch)).map Prod.fst
        = List.range bl.nextSlot
    simpa using h
  · rfl

theorem MInv_processForwardBatch {s : MHOState} {outs : List MHOut} (hI : MInv s outs)
    (fb : FwdBatch) :
    MInv (processForwardBatch s fb).1 (outs ++ (processForwardBatch s fb).2) := by
  obtain ⟨h1, _⟩ := hI
  have hbl : BInv (match fb with
      | FwdBatch.batchData b => s.multiHomeBatchLog.addBatch b
      | FwdBatch.batchOrder slot bid => s.multiHomeBatchLog.addSlot slot bid)
      ((seqBatches outs).map Batch.id) := by
    cases fb with
    | batchData b => exact BInv_addBatch h1 b
    | batchOrder slot bid => exact BInv_addSlot h1 slot bid
  exact MInv_drain hbl

theorem MInv_handleEvent {cfg : Config} {s : MHOState} {outs : List MHOut}
    (hI : MInv s outs) (ev : MHOEvent) :
    MInv (handleEvent cfg s ev).1 (outs ++ (handleEvent cfg s ev).2) := by
  cases ev with
  | forwardTxn t =>
    obtain ⟨h1, h2⟩ := hI
    refine ⟨?_, h2⟩
    show BInv s.multiHomeBatchLog ((seqBatches (outs ++ [])).map Batch.id)
    simpa using h1
  | forwardBatchData b => exact MInv_processForwardBatch hI (FwdBatch.batchData b)
  | forwardBatchOrder slot bid => exact MInv_processForwardBatch hI (FwdBatch.batchOrder slot bid)
  | tick =>
    obtain ⟨h1, h2⟩ := hI
    constructor
    · show BInv (handleTick cfg s).1.multiHomeBatchLog
          ((seqBatches (outs ++ (handleTick cfg s).2)).map Batch.id)
      rw [seqBatches_append, seqBatches_tick, List.append_nil, handleTick_batchLog]
      exact h1
    · show (handleTick cfg s).1.multiHomeBatchLog.ready = []
      rw [handleTick_batchLog]
      exact h2

theorem runMHOAux_inv (cfg : Config) : ∀ (evs : List MHOEvent) (s : MHOState)
    (outs : List MHOut), MInv s outs →
    MInv (runMHOAux cfg s outs evs).1 (runMHOAux cfg s outs evs).2
  | [], _, _, hI => hI
  | ev :: evs, s, outs, hI => by
    unfold runMHOAux
    exact runMHOAux_inv cfg evs _ _ (MInv_handleEvent hI ev)

theorem MInv_init : MInv MHOState.init [] :=
  ⟨by simpa using BInv_init, rfl⟩

/-- Claim C4: on a tick, an empty open batch leaves all state unchanged and
sends nothing; otherwise the batch id becomes NextBatchId() (counter + 1
times kMaxNumMachines plus local_machine_id), a PaxosPropose with that id
goes to the global paxos channel, the batch data goes on the MH-orderer
channel to machine MakeMachineId(rep, leader_partition_for_multi_home_ordering())
for every replica rep below num_replicas, and the open batch is reset to an
empty MULTI_HOME batch (the BatchLog is untouched). -/
theorem claim_C4 (cfg : Config) (s : MHOState) :
    (s.curBatch.txns = [] → handleEvent cfg s MHOEvent.tick = (s, [])) ∧
    (s.curBatch.txns ≠ [] →
      handleEvent cfg s MHOEvent.tick =
        ({ curBatch := newBatch, batchIdCounter := s.batchIdCounter + 1,
           multiHomeBatchLog := s.multiHomeBatchLog },
         MHOut.localMsg Channel.globalPaxos (Payload.paxosPropose
             ((s.batchIdCounter + 1) * cfg.kMaxNumMachines + cfg.localMachineId))
           :: (List.range cfg.numReplicas).map (fun rep =>
             MHOut.remoteMsg (cfg.makeMachineId rep cfg.leaderPartitionForMultiHomeOrdering)
               Channel.multiHomeOrderer (Payload.forwardBatchData
                 { s.curBatch with id := (s.batchIdCounter + 1) * cfg.kMaxNumMachines
                     + cfg.localMachineId })))) := by
  constructor
  · intro h
    show handleTick cfg s = (s, [])
    unfold handleTick
    rw [if_pos (by simp [h])]
  · intro h
    show handleTick cfg s = _
    unfold handleTick
    rw [if_neg (by simp [h])]
    rfl

/-- Witness for claim C4 at a non-empty open batch holding transaction 7. -/
theorem claim_C4_witness :
    sW.curBatch.txns ≠ [] ∧
    handleEvent cfgW sW MHOEvent.tick =
      (⟨newBatch, 1, BatchLog.init⟩,
       [MHOut.localMsg Channel.globalPaxos (Payload.paxosPropose 1003),
        MHOut.remoteMsg 1 Channel.multiHomeOrderer
          (Payload.forwardBatchData ⟨1003, TType.multiHome, [7]⟩),
        MHOut.remoteMsg 3 Channel.multiHomeOrderer
          (Payload.forwardBatchData ⟨1003, TType.multiHome, [7]⟩)]) := by
  refine ⟨by decide, ?_⟩
  rw [(claim_C4 cfgW sW).2 (by decide)]
  decide

/-- Claim C5: after every event (tick, batch-data arrival or slot-decision
arrival) the MultiHomeOrderer has drained its BatchLog: no emittable
(slot, batch) pair remains, and across any run the batches sent to the
sequencer channel carry ids overwritten to their slot numbers, in ascending
slot order 0, 1, 2, ... with no gap or repetition. -/
theorem claim_C5 (cfg : Config) (evs : List MHOEvent) :
    (runMHO cfg evs).1.multiHomeBatchLog.ready = [] ∧
    ((seqBatches (runMHO cfg evs).2).map Batch.id)
      = List.range (seqBatches (runMHO cfg evs).2).length := by
  have h := runMHOAux_inv cfg evs MHOState.init [] MInv_init
  obtain ⟨h1, h2⟩ := h
  refine ⟨h2, ?_⟩
  have hr : runMHO cfg evs = runMHOAux cfg MHOState.init [] evs := rfl
  rw [hr]
  unfold BInv at h1
  rw [h2] at h1
  simp only [List.map_nil, List.append_nil] at h1
  have hlen : (seqBatches (runMHOAux cfg MHOState.init [] evs).2).length
      = (runMHOAux cfg MHOState.init [] evs).1.multiHomeBatchLog.nextSlot := by
    have hl := congrArg List.length h1
    simpa using hl
  rw [h1, hlen]

/-- Claim C6: the n-th NextBatchId() call returns
n * kMaxNumMachines + local_machine_id; the producer counter is n after n
calls (so it is 1 on the first batch and increments by 1 per batch), and
when kMaxNumMachines is at least 1 the successive batch ids of one producer
are strictly increasing. -/
theorem claim_C6 (cfg : Config) (n : Nat) :
    (batchIdCalls cfg n).1 = n ∧
    (batchIdCalls cfg n).2
      = (List.range n).map (fun i => (i + 1) * cfg.kMaxNumMachines + cfg.localMachineId) ∧
    (1 ≤ cfg.kMaxNumMachines →
      (batchIdCalls cfg n).2.Pairwise (fun a b => a < b)) := by
  have hmain : (batchIdCalls cfg n).1 = n ∧ (batchIdCalls cfg n).2
      = (List.range n).map (fun i => (i + 1) * cfg.kMaxNumMachines + cfg.localMachineId) := by
    induction n with
    | zero => exact ⟨rfl, rfl⟩
    | succ m ih =>
      obtain ⟨ih1, ih2⟩ := ih
      constructor
      · show (nextBatchId cfg (batchIdCalls cfg m).1).1 = m + 1
        rw [ih1]
        rfl
      · show (batchIdCalls cfg m).2 ++ [(nextBatchId cfg (batchIdCalls cfg m).1).2] = _
        rw [ih1, ih2, List.range_succ, List.map_append]
        rfl
  refine ⟨hmain.1, hmain.2, ?_⟩
  intro hk
  rw [hmain.2]
  refine List.Pairwise.map _ ?_ (List.pairwise_lt_range n)
  intro a b hab
  have h2 : (a + 1) * cfg.kMaxNumMachines < (b + 1) * cfg.kMaxNumMachines :=
    Nat.mul_lt_mul_of_lt_of_le (by omega) (le_refl _) hk
  omega

/-- Witness for claim C6: three calls under cfgW produce counter 3 and the
strictly increasing ids 1003, 2003, 3003. -/
theorem claim_C6_witness :
    1 ≤ cfgW.kMaxNumMachines ∧ (batchIdCalls cfgW 3).1 = 3 ∧
    (batchIdCalls cfgW 3).2.Pairwise (fun a b => a < b) :=
  ⟨by decide, (claim_C6 cfgW 3).1, (claim_C6 cfgW 3).2.2 (by decide)⟩

/-- Counterexample to claim C9: when the broker weak pointer is dead but the
per-destination (per-channel) cache already holds a socket for the target,
Sender::SendSerialized (Sender::SendLocal) still writes the message to that
socket - the broker is only consulted on a cache miss - so the claim that a
destroyed broker means nothing is sent is false. Machine 5 is cached for
SendSerialized, channel 4 for SendLocal. -/
theorem claim_C9_counterexample :
    (sendSerialized false ⟨[5], []⟩ 5).2 = true ∧
    (sendLocal false ⟨[], [4]⟩ 4).2 = true := by
  decide

/-- Claim C9 (amended): if the Broker has been destroyed and the
per-destination (resp. per-channel) socket cache has no entry for the
target, SendSerialized and SendLocal return without sending anything and
without modifying either cache; a target with a cached socket is sent to
regardless of the broker. -/
theorem claim_C9_amended (s : SenderState) (m ch : Nat)
    (hm : m ∉ s.machineIdToSocket) (hc : ch ∉ s.localChannelToSocket) :
    sendSerialized false s m = (s, false) ∧ sendLocal false s ch = (s, false) := by
  constructor
  · unfold sendSerialized
    rw [if_neg hm]
    rfl
  · unfold sendLocal
    rw [if_neg hc]
    rfl

/-- Witness for claim C9 (amended) on empty caches. -/
theorem claim_C9_amended_witness :
    (5 ∉ (⟨[], []⟩ : SenderState).machineIdToSocket) ∧
    (4 ∉ (⟨[], []⟩ : SenderState).localChannelToSocket) ∧
    sendSerialized false ⟨[], []⟩ 5 = (⟨[], []⟩, false) ∧
    sendLocal false ⟨[], []⟩ 4 = (⟨[], []⟩, false) := by
  refine ⟨by decide, by decide, ?_, ?_⟩
  · exact (claim_C9_amended ⟨[], []⟩ 5 4 (by decide) (by decide)).1
  · exact (claim_C9_amended ⟨[], []⟩ 5 4 (by decide) (by decide)).2

/-! ### SimpleRemasterManager: characterization of CheckCounters and
VerifyMaster -/

theorem checkCountersAux_cons_some (st : Storage) (k : Nat × Nat × Nat)
    (rest : List (Nat × Nat × Nat)) (w : Bool) (r : Nat × Nat)
    (h : alookup k.1 st = some r) :
    checkCountersAux st (k :: rest) w =
      (if r.2 < k.2.2 then checkCountersAux st rest true
       else if k.2.2 < r.2 then some VMResult.abort
       else if k.2.1 = r.1 then checkCountersAux st rest w
       else none) := by
  simp only [checkCountersAux]
  rw [h]

theorem checkCountersAux_cons_none (st : Storage) (k : Nat × Nat × Nat)
    (rest : List (Nat × Nat × Nat)) (w : Bool)
    (h : alookup k.1 st = none) :
    checkCountersAux st (k :: rest) w =
      (if 0 < k.2.2 then checkCountersAux st rest true
       else checkCountersAux st rest w) := by
  simp only [checkCountersAux]
  rw [h]

theorem anyCounterLt_cons (st : Storage) (k : Nat × Nat × Nat)
    (rest : List (Nat × Nat × Nat)) :
    anyCounterLt st (k :: rest)
      = (decide (k.2.2 < storedCounter st k.1) || anyCounterLt st rest) := by
  simp [anyCounterLt]

theorem anyCounterGt_cons (st : Storage) (k : Nat × Nat × Nat)
    (rest : List (Nat × Nat × Nat)) :
    anyCounterGt st (k :: rest)
      = (decide (storedCounter st k.1 < k.2.2) || anyCounterGt st rest) := by
  simp [anyCounterGt]

theorem checkCountersAux_spec (st : Storage) :
    ∀ (keys : List (Nat × Nat × Nat)) (w : Bool), noFatalMismatch st keys →
    checkCountersAux st keys w =
      some (if anyCounterLt st keys then VMResult.abort
            else if w || anyCounterGt st keys then VMResult.waiting
            else VMResult.valid)
  | [], w, _ => by
    cases w <;> simp [checkCountersAux, anyCounterLt, anyCounterGt]
  | k :: rest, w, hnf => by
    have hnfr : noFatalMismatch st rest :=
      fun k2 hk2 => hnf k2 (List.mem_cons_of_mem _ hk2)
    rw [anyCounterLt_cons, anyCounterGt_cons]
    cases hlk : alookup k.1 st with
    | some r =>
      have hsc : storedCounter st k.1 = r.2 := by simp [storedCounter, hlk]
      rw [checkCountersAux_cons_some st k rest w r hlk, hsc]
      by_cases hgt : r.2 < k.2.2
      · rw [if_pos hgt, checkCountersAux_spec st rest true hnfr]
        have h1 : decide (k.2.2 < r.2) = false := by
          simp only [decide_eq_false_iff_not]
          omega
        have h2 : decide (r.2 < k.2.2) = true := by simpa using hgt
        rw [h1, h2]
        simp
      · by_cases hlt : k.2.2 < r.2
        · rw [if_neg hgt, if_pos hlt]
          have h1 : decide (k.2.2 < r.2) = true := by simpa using hlt
          rw [h1]
          simp
        · have heq : k.2.2 = r.2 := by omega
          have hm : k.2.1 = r.1 := hnf k (List.mem_cons_self _ _) r hlk heq
          rw [if_neg hgt, if_neg hlt, if_pos hm, checkCountersAux_spec st rest w hnfr]
          have h1 : decide (k.2.2 < r.2) = false := by
            simp only [decide_eq_false_iff_not]
            omega
          have h2 : decide (r.2 < k.2.2) = false := by
            simp only [decide_eq_false_iff_not]
            omega
          rw [h1, h2]
          simp
    | none =>
      have hsc : storedCounter st k.1 = 0 := by simp [storedCounter, hlk]
      rw [checkCountersAux_cons_none st k rest w hlk, hsc]
      by_cases h0 : 0 < k.2.2
      · rw [if_pos h0, checkCountersAux_spec st rest true hnfr]
        have h1 : decide (k.2.2 < 0) = false := by simp
        have h2 : decide (0 < k.2.2) = true := by simpa using h0
        rw [h1, h2]
        simp
      · rw [if_neg h0, checkCountersAux_spec st rest w hnfr]
        have h1 : decide (k.2.2 < 0) = false := by simp
        have h2 : decide (0 < k.2.2) = false := by simpa using h0
        rw [h1, h2]
        simp

theorem checkCounters_spec (st : Storage) (t : TxnH) (hnf : noFatalMismatch st t.keys) :
    checkCounters st t =
      some (if anyCounterLt st t.keys then VMResult.abort
            else if anyCounterGt st t.keys then VMResult.waiting
            else VMResult.valid) := by
  have h := checkCountersAux_spec st t.keys false hnf
  simpa [checkCounters] using h

theorem noFatalMismatch_of_bool (st : Storage) (keys : List (Nat × Nat × Nat))
    (h : noFatalMismatchB st keys = true) : noFatalMismatch st keys := by
  intro k hk r hr heq
  have h2 := (List.all_eq_true.mp h) k hk
  simp only [hr] at h2
  simpa [heq] using h2

/-- Claim C1 (amended): for a transaction with internally consistent per-key
declarations that does not trip the fatal equal-counter master-mismatch
check, VerifyMaster returns WAITING unconditionally when another transaction
is already blocked in the queue of the transaction's home region (the
transaction is appended behind it without inspecting its metadata);
otherwise it returns ABORT iff some key declares a counter strictly less
than the key's current counter, WAITING iff no key does and some key
declares a counter strictly greater, and VALID otherwise. A declared master
differing from the stored master does not cause ABORT: it is fatal when the
counters are equal and ignored otherwise. -/
theorem claim_C1_amended (st : Storage) (m : SRMState) (t : TxnH)
    (hnf : noFatalMismatch st t.keys) :
    (verifyMaster st m t).1 =
      (if (m.getQueue t.home).isEmpty then
        some (if anyCounterLt st t.keys then VMResult.abort
              else if anyCounterGt st t.keys then VMResult.waiting
              else VMResult.valid)
      else some VMResult.waiting) := by
  unfold verifyMaster
  by_cases hq : (m.getQueue t.home).isEmpty
  · rw [if_pos hq, if_pos hq]
    have hc := checkCounters_spec st t hnf
    by_cases h1 : anyCounterLt st t.keys
    · rw [if_pos h1] at hc ⊢
      rw [hc]
    · rw [if_neg h1] at hc ⊢
      by_cases h2 : anyCounterGt st t.keys
      · rw [if_pos h2] at hc ⊢
        rw [hc]
      · rw [if_neg h2] at hc ⊢
        rw [hc]
  · rw [if_neg hq, if_neg hq]

/-- Counterexample to claim C1: storage holds key 1 (test key B) with master
1 and counter 1; the transaction (internally consistent, one key) declares
master 0 and counter 2 for that key - a master different from the key's
current master - so the claim requires ABORT, but VerifyMaster returns
WAITING: counters are compared first and a strictly larger declared counter
waits without any master comparison. This is the exact input of the in-repo
test SimpleRemasterManagerTest.ReleaseTransaction (txn1), which asserts
WAITING. -/
theorem claim_C1_counterexample :
    alookup 1 ([(0, (0, 1)), (1, (1, 1))] : Storage) = some (1, 1) ∧
    (verifyMaster [(0, (0, 1)), (1, (1, 1))] SRMState.init ⟨100, [(1, 0, 2)]⟩).1
        = some VMResult.waiting ∧
    (verifyMaster [(0, (0, 1)), (1, (1, 1))] SRMState.init ⟨100, [(1, 0, 2)]⟩).1
        ≠ some VMResult.abort := by
  decide

/-- Witness for claim C1 (amended): the CheckCounters test input txn3
(declares counter 2 for key 0 whose stored counter is 1) on an empty
manager is WAITING. -/
theorem claim_C1_amended_witness :
    noFatalMismatch [(0, (0, 1))] ((⟨300, [(0, 0, 2)]⟩ : TxnH)).keys ∧
    (verifyMaster [(0, (0, 1))] SRMState.init ⟨300, [(0, 0, 2)]⟩).1
        = some VMResult.waiting := by
  have hnf : noFatalMismatch [(0, (0, 1))] ((⟨300, [(0, 0, 2)]⟩ : TxnH)).keys :=
    noFatalMismatch_of_bool _ _ (by decide)
  refine ⟨hnf, ?_⟩
  rw [claim_C1_amended [(0, (0, 1))] SRMState.init ⟨300, [(0, 0, 2)]⟩ hnf]
  decide

/-! ### Cascading unblock: RemasterOccured and ReleaseTransaction -/

theorem inQueues_cons (x : TxnH) (p : Nat × List TxnH) (rest : List (Nat × List TxnH)) :
    inQueues x (p :: rest) ↔ x ∈ p.2 ∨ inQueues x rest := by
  constructor
  · rintro ⟨p2, hp2, hx⟩
    rcases List.mem_cons.mp hp2 with rfl | hp3
    · exact Or.inl hx
    · exact Or.inr ⟨p2, hp3, hx⟩
  · rintro (hx | ⟨p2, hp2, hx⟩)
    · exact ⟨p, List.mem_cons_self _ _, hx⟩
    · exact ⟨p2, List.mem_cons_of_mem _ hp2, hx⟩

theorem cascade_spec (st : Storage) :
    ∀ (q : List TxnH) (r : List TxnH × List TxnH × List TxnH),
    cascade st q = some r →
    (∀ x ∈ r.2.1, x ∈ q ∧ checkCounters st x = some VMResult.valid) ∧
    (∀ x ∈ r.2.2, x ∈ q ∧ checkCounters st x = some VMResult.abort) ∧
    (∀ x ∈ r.1, x ∈ q)
  | [], r, h => by
    simp only [cascade] at h
    obtain rfl : (([], [], []) : List TxnH × List TxnH × List TxnH) = r := Option.some.inj h
    refine ⟨?_, ?_, ?_⟩ <;> intro x hx <;> simp at hx
  | t :: rest, r, h => by
    simp only [cascade] at h
    split at h
    · -- checkCounters st t = some waiting: cascade stops
      next hc =>
      obtain rfl := Option.some.inj h
      refine ⟨?_, ?_, ?_⟩
      · intro x hx
        simp at hx
      · intro x hx
        simp at hx
      · intro x hx
        exact hx
    · -- valid: t unblocks, cascade continues
      next hc =>
      split at h
      · cases h
      next q2 u a hrec =>
        obtain rfl := Option.some.inj h
        obtain ⟨hu, ha, hq⟩ := cascade_spec st rest (q2, u, a) hrec
        refine ⟨?_, ?_, ?_⟩
        · intro x hx
          rcases List.mem_cons.mp hx with rfl | hx2
          · exact ⟨List.mem_cons_self _ _, hc⟩
          · obtain ⟨hmem, hval⟩ := hu x hx2
            exact ⟨List.mem_cons_of_mem _ hmem, hval⟩
        · intro x hx
          obtain ⟨hmem, hab⟩ := ha x hx
          exact ⟨List.mem_cons_of_mem _ hmem, hab⟩
        · intro x hx
          exact List.mem_cons_of_mem _ (hq x hx)
    · -- abort: t aborts, cascade continues
      next hc =>
      split at h
      · cases h
      next q2 u a hrec =>
        obtain rfl := Option.some.inj h
        obtain ⟨hu, ha, hq⟩ := cascade_spec st rest (q2, u, a) hrec
        refine ⟨?_, ?_, ?_⟩
        · intro x hx
          obtain ⟨hmem, hval⟩ := hu x hx
          exact ⟨List.mem_cons_of_mem _ hmem, hval⟩
        · intro x hx
          rcases List.mem_cons.mp hx with rfl | hx2
          · exact ⟨List.mem_cons_self _ _, hc⟩
          · obtain ⟨hmem, hab⟩ := ha x hx2
            exact ⟨List.mem_cons_of_mem _ hmem, hab⟩
        · intro x hx
          exact List.mem_cons_of_mem _ (hq x hx)
    · -- fatal check inside the cascade
      cases h

theorem remOccAux_spec (st : Storage) (key : Nat) :
    ∀ (bq : List (Nat × List TxnH)) (r : List (Nat × List TxnH) × List TxnH × List TxnH),
    remasterOccuredAux st key bq = some r →
    (∀ x ∈ r.2.1, inQueues x bq ∧ checkCounters st x = some VMResult.valid) ∧
    (∀ x ∈ r.2.2, inQueues x bq ∧ checkCounters st x = some VMResult.abort) ∧
    (∀ x, inQueues x r.1 → inQueues x bq)
  | [], r, h => by
    simp only [remasterOccuredAux] at h
    obtain rfl : (([], [], []) : List (Nat × List TxnH) × List TxnH × List TxnH) = r :=
      Option.some.inj h
    refine ⟨?_, ?_, ?_⟩
    · intro x hx
      simp at hx
    · intro x hx
      simp at hx
    · intro x hx
      simp [inQueues] at hx
  | (hh, q) :: rest, r, h => by
    simp only [remasterOccuredAux] at h
    split at h
    · -- the front of this queue accesses the key: cascade it
      split at h
      · cases h
      next q2 u a hcasc =>
        split at h
        · cases h
        next rest2 u2 a2 hrec =>
          obtain rfl := Option.some.inj h
          obtain ⟨hcu, hca, hcq⟩ := cascade_spec st q (q2, u, a) hcasc
          obtain ⟨hru, hra, hrq⟩ := remOccAux_spec st key rest (rest2, u2, a2) hrec
          refine ⟨?_, ?_, ?_⟩
          · intro x hx
            rcases List.mem_append.mp hx with hx1 | hx2
            · obtain ⟨hmem, hval⟩ := hcu x hx1
              exact ⟨(inQueues_cons x (hh, q) rest).mpr (Or.inl hmem), hval⟩
            · obtain ⟨hmem, hval⟩ := hru x hx2
              exact ⟨(inQueues_cons x (hh, q) rest).mpr (Or.inr hmem), hval⟩
          · intro x hx
            rcases List.mem_append.mp hx with hx1 | hx2
            · obtain ⟨hmem, hab⟩ := hca x hx1
              exact ⟨(inQueues_cons x (hh, q) rest).mpr (Or.inl hmem), hab⟩
            · obtain ⟨hmem, hab⟩ := hra x hx2
              exact ⟨(inQueues_cons x (hh, q) rest).mpr (Or.inr hmem), hab⟩
          · intro x hx
            rcases (inQueues_cons x (hh, q2) rest2).mp hx with hx1 | hx2
            · exact (inQueues_cons x (hh, q) rest).mpr (Or.inl (hcq x hx1))
            · exact (inQueues_cons x (hh, q) rest).mpr (Or.inr (hrq x hx2))
    · -- front does not access the key: queue untouched
      split at h
      · cases h
      next rest2 u2 a2 hrec =>
        obtain rfl := Option.some.inj h
        obtain ⟨hru, hra, hrq⟩ := remOccAux_spec st key rest (rest2, u2, a2) hrec
        refine ⟨?_, ?_, ?_⟩
        · intro x hx
          obtain ⟨hmem, hval⟩ := hru x hx
          exact ⟨(inQueues_cons x (hh, q) rest).mpr (Or.inr hmem), hval⟩
        · intro x hx
          obtain ⟨hmem, hab⟩ := hra x hx
          exact ⟨(inQueues_cons x (hh, q) rest).mpr (Or.inr hmem), hab⟩
        · intro x hx
          rcases (inQueues_cons x (hh, q) rest2).mp hx with hx1 | hx2
          · exact (inQueues_cons x (hh, q) rest).mpr (Or.inl hx1)
          · exact (inQueues_cons x (hh, q) rest).mpr (Or.inr (hrq x hx2))

/-- Claim C7 (amended): RemasterOccured(key, c) cascades from the heads of
the blocked queues whose front transaction accesses key, re-verifying each
successive head against the current storage: every transaction it reports
unblocked was blocked and now passes CheckCounters as VALID, every
transaction it reports should_abort was blocked and now checks as ABORT, and
no new transaction becomes blocked; a blocked transaction behind a head that
is still WAITING stays blocked even if its declared counter for key equals
the new counter. -/
theorem claim_C7_amended (st : Storage) (m : SRMState) (key c : Nat)
    (res : RemasterOccurredResult) (m2 : SRMState)
    (h : remasterOccured st m key c = some (res, m2)) :
    (∀ x ∈ res.unblocked, inQueues x m.blockedQueue ∧ checkCounters st x = some VMResult.valid) ∧
    (∀ x ∈ res.shouldAbort, inQueues x m.blockedQueue ∧ checkCounters st x = some VMResult.abort) ∧
    (∀ x, inQueues x m2.blockedQueue → inQueues x m.blockedQueue) := by
  unfold remasterOccured at h
  split at h
  · cases h
  next bq u a haux =>
    obtain ⟨rfl, rfl⟩ := Prod.mk.inj (Option.some.inj h)
    exact remOccAux_spec st key m.blockedQueue (bq, u, a) haux

/-- Counterexample to claim C7: storage key 0 now has counter 2 and the
blocked queue holds, in order, a transaction declaring counter 3 and behind
it one declaring counter 2 for key 0 (both blocked by earlier VerifyMaster
calls against the old storage). After RemasterOccured(0, 2) the claim
requires the counter-2 transaction in unblocked and nothing in should_abort
filled with the counter-3 one aborted; the code unblocks nothing: the head
still WAITS (3 > 2), the cascade stops there, and the matching transaction
behind it stays blocked. -/
theorem claim_C7_counterexample :
    (verifyMaster [(0, (0, 1))] SRMState.init ⟨100, [(0, 0, 3)]⟩).1 = some VMResult.waiting ∧
    (verifyMaster [(0, (0, 1))]
        (verifyMaster [(0, (0, 1))] SRMState.init ⟨100, [(0, 0, 3)]⟩).2
        ⟨200, [(0, 0, 2)]⟩).1 = some VMResult.waiting ∧
    inQueues ⟨200, [(0, 0, 2)]⟩
      ((verifyMaster [(0, (0, 1))]
          (verifyMaster [(0, (0, 1))] SRMState.init ⟨100, [(0, 0, 3)]⟩).2
          ⟨200, [(0, 0, 2)]⟩).2).blockedQueue ∧
    (remasterOccured [(0, (0, 2))]
        ((verifyMaster [(0, (0, 1))]
            (verifyMaster [(0, (0, 1))] SRMState.init ⟨100, [(0, 0, 3)]⟩).2
            ⟨200, [(0, 0, 2)]⟩).2) 0 2).map (fun p => p.1.unblocked)
      = some [] := by
  refine ⟨by decide, by decide, ⟨(0, [⟨100, [(0, 0, 3)]⟩, ⟨200, [(0, 0, 2)]⟩]), by decide, by decide⟩, by decide⟩

/-- Witness for claim C7 (amended) on the RemasterUnblocks test state:
queue [txn 100 (counter 2), txn 200 (counter 1)], storage key 0 remastered
to counter 2; txn 100 is unblocked and checks VALID, txn 200 aborts and
checks ABORT. -/
theorem claim_C7_amended_witness :
    checkCounters [(0, (0, 2))] (⟨100, [(0, 0, 2)]⟩ : TxnH) = some VMResult.valid ∧
    checkCounters [(0, (0, 2))] (⟨200, [(0, 0, 1)]⟩ : TxnH) = some VMResult.abort := by
  have h : remasterOccured [(0, (0, 2))]
      (⟨[(0, [⟨100, [(0, 0, 2)]⟩, ⟨200, [(0, 0, 1)]⟩])]⟩ : SRMState) 0 2
      = some (⟨[⟨100, [(0, 0, 2)]⟩], [⟨200, [(0, 0, 1)]⟩]⟩, ⟨[(0, [])]⟩) := by
    decide
  have hs := claim_C7_amended _ _ _ _ _ _ h
  exact ⟨(hs.1 _ (by decide)).2, (hs.2.1 _ (by decide)).2⟩

theorem removeFirst_subset (t : TxnH) :
    ∀ (l : List TxnH) (x : TxnH), x ∈ removeFirst t l → x ∈ l
  | [], x, h => by simp [removeFirst] at h
  | y :: rest, x, h => by
    simp only [removeFirst] at h
    by_cases hyt : y = t
    · rw [if_pos hyt] at h
      exact List.mem_cons_of_mem _ h
    · rw [if_neg hyt] at h
      rcases List.mem_cons.mp h with rfl | h2
      · exact List.mem_cons_self _ _
      · exact List.mem_cons_of_mem _ (removeFirst_subset t rest x h2)

theorem alookup_aremove_ne {α : Type} (k k2 : Nat) (h : k ≠ k2) :
    ∀ (l : List (Nat × α)), alookup k (aremove k2 l) = alookup k l
  | [] => rfl
  | (a, v) :: rest => by
    simp only [aremove, List.filter_cons]
    by_cases hak : a = k2
    · subst hak
      rw [show ((a, v).1 != a) = false by simp]
      rw [if_neg Bool.false_ne_true]
      rw [alookup_cons, if_neg (fun hc => h hc)]
      exact alookup_aremove_ne k a h rest
    · rw [show ((a, v).1 != k2) = true by simpa using hak]
      rw [if_pos rfl]
      rw [alookup_cons, alookup_cons]
      by_cases hka : k = a
      · rw [if_pos hka, if_pos hka]
      · rw [if_neg hka, if_neg hka]
        exact alookup_aremove_ne k k2 h rest

theorem getQueue_setQueue (m : SRMState) (h h2 : Nat) (q : List TxnH) :
    (m.setQueue h q).getQueue h2 = (if h2 = h then q else m.getQueue h2) := by
  unfold SRMState.setQueue SRMState.getQueue
  rw [alookup_cons]
  by_cases hh : h2 = h
  · rw [if_pos hh, if_pos hh]
    rfl
  · rw [if_neg hh, if_neg hh, alookup_aremove_ne h2 h hh]

/-- Claim C8 (amended): ReleaseTransaction(txn) removes txn (its first
occurrence) from the blocked queue of txn's home region if present, leaving
every other queue untouched; when txn was the queue head the successive new
heads are re-verified, so every transaction reported unblocked (resp.
should_abort) was queued behind txn in that single home-region queue and now
checks VALID (resp. ABORT), the cascade stopping at the first head still
WAITING; no transaction becomes newly blocked. Queues are per home region,
not per key, so the unblocked transactions need not share any key with txn,
and a waiting transaction is emitted only when it reaches the head of its
home-region queue. -/
theorem claim_C8_amended (st : Storage) (m : SRMState) (t : TxnH)
    (res : RemasterOccurredResult) (m2 : SRMState)
    (h : releaseTransaction st m t = some (res, m2)) :
    (∀ x ∈ res.unblocked,
        x ∈ (m.getQueue t.home).tail ∧ checkCounters st x = some VMResult.valid) ∧
    (∀ x ∈ res.shouldAbort,
        x ∈ (m.getQueue t.home).tail ∧ checkCounters st x = some VMResult.abort) ∧
    (∀ h2, h2 ≠ t.home → m2.getQueue h2 = m.getQueue h2) ∧
    (∀ x ∈ m2.getQueue t.home, x ∈ m.getQueue t.home) := by
  simp only [releaseTransaction] at h
  split at h
  next hq =>
    obtain ⟨rfl, rfl⟩ := Prod.mk.inj (Option.some.inj h)
    refine ⟨?_, ?_, ?_, ?_⟩
    · intro x hx
      simp at hx
    · intro x hx
      simp at hx
    · intro h2 _
      rfl
    · intro x hx
      exact hx
  next hd rest hq =>
    split at h
    next hht =>
      -- t is the head of its queue: cascade the remainder
      split at h
      · cases h
      next q2 u a hcasc =>
        obtain ⟨rfl, rfl⟩ := Prod.mk.inj (Option.some.inj h)
        obtain ⟨hu, ha, hsub⟩ := cascade_spec st rest (q2, u, a) hcasc
        refine ⟨?_, ?_, ?_, ?_⟩
        · intro x hx
          obtain ⟨hmem, hval⟩ := hu x hx
          rw [hq]
          exact ⟨hmem, hval⟩
        · intro x hx
          obtain ⟨hmem, hab⟩ := ha x hx
          rw [hq]
          exact ⟨hmem, hab⟩
        · intro h2 hne
          rw [getQueue_setQueue, if_neg hne]
        · intro x hx
          rw [getQueue_setQueue, if_pos rfl] at hx
          rw [hq]
          exact List.mem_cons_of_mem _ (hsub x hx)
    next hht =>
      split at h
      next hmem0 =>
        -- t is in the queue but not at the head: remove it, no cascade
        obtain ⟨rfl, rfl⟩ := Prod.mk.inj (Option.some.inj h)
        refine ⟨?_, ?_, ?_, ?_⟩
        · intro x hx
          simp at hx
        · intro x hx
          simp at hx
        · intro h2 hne
          rw [getQueue_setQueue, if_neg hne]
        · intro x hx
          rw [getQueue_setQueue, if_pos rfl] at hx
          rw [hq]
          rcases List.mem_cons.mp hx with rfl | hx2
          · exact List.mem_cons_self _ _
          · exact List.mem_cons_of_mem _ (removeFirst_subset t rest x hx2)
      next hmem0 =>
        -- t was never blocked: no-op
        obtain ⟨rfl, rfl⟩ := Prod.mk.inj (Option.some.inj h)
        refine ⟨?_, ?_, ?_, ?_⟩
        · intro x hx
          simp at hx
        · intro x hx
          simp at hx
        · intro h2 _
          rfl
        · intro x hx
          exact hx

/-- Counterexample to claim C8: storage key 0 has counter 1; three
transactions all on key 0 enter - t (counter 2, WAITING), w (counter 3,
queued behind t), u (counter 1, queued behind w). u is queued behind t on a
shared key and its verification now succeeds (its declared counter matches
storage), so the claim requires u in the unblocked list of
ReleaseTransaction(t); the code stops the cascade at w, which still WAITS,
and returns no unblocked transaction at all. -/
theorem claim_C8_counterexample :
    checkCounters [(0, (0, 1))] (⟨300, [(0, 0, 1)]⟩ : TxnH) = some VMResult.valid ∧
    (releaseTransaction [(0, (0, 1))]
        ((verifyMaster [(0, (0, 1))]
            ((verifyMaster [(0, (0, 1))]
                ((verifyMaster [(0, (0, 1))] SRMState.init ⟨100, [(0, 0, 2)]⟩).2)
                ⟨200, [(0, 0, 3)]⟩).2)
            ⟨300, [(0, 0, 1)]⟩).2)
        ⟨100, [(0, 0, 2)]⟩).map (fun p => p.1.unblocked)
      = some [] ∧
    (⟨300, [(0, 0, 1)]⟩ : TxnH) ∈
      (((verifyMaster [(0, (0, 1))]
            ((verifyMaster [(0, (0, 1))]
                ((verifyMaster [(0, (0, 1))] SRMState.init ⟨100, [(0, 0, 2)]⟩).2)
                ⟨200, [(0, 0, 3)]⟩).2)
            ⟨300, [(0, 0, 1)]⟩).2).getQueue 0).tail := by
  decide

/-- Witness for claim C8 (amended) on the ReleaseTransaction test state:
queue of home 0 is [txn 100 (key 1), txn 200 (key 0)]; releasing txn 100
unblocks txn 200, which shares no key with it and checks VALID. -/
theorem claim_C8_amended_witness :
    checkCounters [(0, (0, 1)), (1, (1, 1))] (⟨200, [(0, 0, 1)]⟩ : TxnH)
        = some VMResult.valid ∧
    (⟨200, [(0, 0, 1)]⟩ : TxnH) ∈
      (((⟨[(0, [⟨100, [(1, 0, 2)]⟩, ⟨200, [(0, 0, 1)]⟩])]⟩ : SRMState)).getQueue
        (⟨100, [(1, 0, 2)]⟩ : TxnH).home).tail := by
  have h : releaseTransaction [(0, (0, 1)), (1, (1, 1))]
      (⟨[(0, [⟨100, [(1, 0, 2)]⟩, ⟨200, [(0, 0, 1)]⟩])]⟩ : SRMState) ⟨100, [(1, 0, 2)]⟩
      = some (⟨[⟨200, [(0, 0, 1)]⟩], []⟩, ⟨[(0, [])]⟩) := by
    decide
  have hs := claim_C8_amended _ _ _ _ _ h
  have h200 := hs.1 ⟨200, [(0, 0, 1)]⟩ (by decide)
  exact ⟨h200.2, h200.1⟩

/-! ### BasicWorkload::NextTransaction -/

theorem pickFresh_spec (pick : Nat → Nat) (used : List Nat) :
    ∀ (fuel j k j2 : Nat), pickFresh pick used j fuel = some (k, j2) → k ∉ used := by
  intro fuel
  induction fuel with
  | zero =>
    intro j k j2 h
    simp [pickFresh] at h
  | succ f ih =>
    intro j k j2 h
    simp only [pickFresh] at h
    split at h
    next hmem => exact ih (j + 1) k j2 h
    next hmem =>
      obtain ⟨rfl, rfl⟩ := Prod.mk.inj (Option.some.inj h)
      exact hmem

theorem buildKeysAux_spec (pick : Nat → Nat) (writes fuel : Nat) :
    ∀ (n j : Nat) (acc out : List KeyOp),
    buildKeysAux pick writes fuel acc.length n j acc = some out →
    (acc.map KeyOp.key).Nodup →
    (∀ i (hi : i < acc.length), (acc[i]).isWrite = decide (i < writes)) →
    out.length = acc.length + n ∧ (out.map KeyOp.key).Nodup ∧
    (∀ i (hi : i < out.length), (out[i]).isWrite = decide (i < writes)) := by
  intro n
  induction n with
  | zero =>
    intro j acc out h hnd hiw
    simp only [buildKeysAux] at h
    obtain rfl := Option.some.inj h
    exact ⟨by omega, hnd, hiw⟩
  | succ nn ih =>
    intro j acc out h hnd hiw
    simp only [buildKeysAux] at h
    split at h
    · cases h
    next r hpf =>
      have hkfresh : r.1 ∉ acc.map KeyOp.key :=
        pickFresh_spec pick (acc.map KeyOp.key) fuel j r.1 r.2 hpf
      have hlen2 : (acc ++ [(⟨r.1, decide (acc.length < writes)⟩ : KeyOp)]).length
          = acc.length + 1 := by simp
      have hnd2 : ((acc ++ [(⟨r.1, decide (acc.length < writes)⟩ : KeyOp)]).map KeyOp.key).Nodup := by
        rw [List.map_append]
        refine List.nodup_append.mpr ⟨hnd, List.nodup_singleton _, ?_⟩
        intro x hx hx2
        simp only [List.map_cons, List.map_nil, List.mem_singleton] at hx2
        subst hx2
        exact hkfresh hx
      have hiw2 : ∀ i (hi : i < (acc ++ [(⟨r.1, decide (acc.length < writes)⟩ : KeyOp)]).length),
          ((acc ++ [(⟨r.1, decide (acc.length < writes)⟩ : KeyOp)])[i]).isWrite
            = decide (i < writes) := by
        intro i hi
        by_cases hilt : i < acc.length
        · rw [List.getElem_append_left hilt]
          exact hiw i hilt
        · have hieq : i = acc.length := by
            rw [hlen2] at hi
            omega
          rw [List.getElem_concat_length acc _ i hieq]
          subst hieq
          rfl
      rw [← hlen2] at h
      obtain ⟨ho1, ho2, ho3⟩ := ih r.2 _ out h hnd2 hiw2
      refine ⟨?_, ho2, ho3⟩
      rw [ho1, hlen2]
      omega

theorem nextTransaction_spec (pick : Nat → Nat) (fuel writes hotRecords records counter : Nat)
    (txn : Txn) (c2 : Nat)
    (h : nextTransaction pick fuel writes hotRecords records counter = some (txn, c2)) :
    txn.keys.length = records ∧ (txn.keys.map KeyOp.key).Nodup ∧
    (∀ i (hi : i < txn.keys.length), (txn.keys[i]).isWrite = decide (i < writes)) ∧
    writes ≤ records ∧ hotRecords ≤ records ∧ txn.id = counter ∧ c2 = counter + 1 := by
  simp only [nextTransaction] at h
  split at h
  · cases h
  next hw =>
    split at h
    · cases h
    next hh =>
      split at h
      · cases h
      next keys hbk =>
        obtain ⟨rfl, rfl⟩ := Prod.mk.inj (Option.some.inj h)
        obtain ⟨h1, h2, h3⟩ :=
          buildKeysAux_spec pick writes fuel records 0 [] keys hbk (by simp)
            (by intro i hi; simp at hi)
        refine ⟨by simpa using h1, h2, h3, by omega, by omega, rfl, rfl⟩

theorem runWorkload_ids (w hr r : Nat) :
    ∀ (inputs : List ((Nat → Nat) × Nat)) (c : Nat),
    (runWorkload w hr r inputs c).map Txn.id
      = List.range' c (runWorkload w hr r inputs c).length
  | [], c => rfl
  | pf :: rest, c => by
    simp only [runWorkload]
    split
    · rfl
    next r0 hnt =>
      obtain ⟨_, _, _, _, _, hid, hc2⟩ :=
        nextTransaction_spec pf.1 pf.2 w hr r c r0.1 r0.2 hnt
      have hrec := runWorkload_ids w hr r rest r0.2
      rw [List.map_cons, hid, hrec, hc2]
      rw [List.length_cons, List.range'_succ]

/-- Claim C10: whenever NextTransaction succeeds (CHECK_LE preconditions
hold and the retry loops terminate), the transaction holds exactly `records`
key-operations with pairwise distinct keys, the operations at indices
0..writes-1 are writes (SET) and the rest reads (GET), the transaction id is
the current client_txn_id_counter_ and the counter advances by one; over a
run started at the initial counter 0, the i-th produced transaction has id
i. -/
theorem claim_C10 :
    (∀ (pick : Nat → Nat) (fuel writes hotRecords records counter : Nat)
        (txn : Txn) (c2 : Nat),
      nextTransaction pick fuel writes hotRecords records counter = some (txn, c2) →
      txn.keys.length = records ∧ (txn.keys.map KeyOp.key).Nodup ∧
      (∀ i (hi : i < txn.keys.length), (txn.keys[i]).isWrite = decide (i < writes)) ∧
      txn.id = counter ∧ c2 = counter + 1) ∧
    (∀ (writes hotRecords records : Nat) (inputs : List ((Nat → Nat) × Nat)),
      (runWorkload writes hotRecords records inputs initialTxnCounter).map Txn.id
        = List.range (runWorkload writes hotRecords records inputs initialTxnCounter).length) := by
  constructor
  · intro pick fuel writes hotRecords records counter txn c2 h
    obtain ⟨h1, h2, h3, _, _, h6, h7⟩ :=
      nextTransaction_spec pick fuel writes hotRecords records counter txn c2 h
    exact ⟨h1, h2, h3, h6, h7⟩
  · intro writes hotRecords records inputs
    rw [runWorkload_ids writes hotRecords records inputs initialTxnCounter,
      List.range_eq_range']
    rfl

/-- Witness for claim C10: the identity oracle with fuel 5, writes = 1,
records = 2, counter 0 produces keys [0 (write), 1 (read)] with id 0 and new
counter 1. -/
theorem claim_C10_witness :
    nextTransaction (fun j => j) 5 1 0 2 0
        = some (⟨0, [⟨0, true⟩, ⟨1, false⟩]⟩, 1) ∧
    ((⟨0, [⟨0, true⟩, ⟨1, false⟩]⟩ : Txn).keys.map KeyOp.key).Nodup ∧
    (⟨0, [⟨0, true⟩, ⟨1, false⟩]⟩ : Txn).keys.length = 2 := by
  have h : nextTransaction (fun j => j) 5 1 0 2 0
      = some (⟨0, [⟨0, true⟩, ⟨1, false⟩]⟩, 1) := by decide
  have hs := claim_C10.1 (fun j => j) 5 1 0 2 0 ⟨0, [⟨0, true⟩, ⟨1, false⟩]⟩ 1 h
  exact ⟨h, hs.2.1, hs.1⟩

end Slog
